import Mathlib

/-!
Verification of the whiplash LSH vector index (`src/whiplash/collection.py`).

The embedding models `Collection` and its storage state. Vector components
are rationals. The storage backend (`whiplash/storage.py`), the hashing
helper (`whiplash/hashing.py`), the vector record type (`whiplash/vector.py`)
and the similarity functions (`whiplash/vector_math.py`) are not part of the
sources; their behaviour is modelled from the specification and each such
definition carries a `Modelled from the spec:` doc comment.

Stateful operations that can raise after having issued storage writes
(`insert`, `insert_batch`) return `Option Err × State`: the state component
is the storage state after every write issued before the failure, mirroring
the fact that writes already sent to the backend persist when a Python
exception is raised mid-operation.
-/

namespace Whiplash

/-- A vector payload: the `values` of a vector, one rational per feature. -/
abbrev Vec := List ℚ

/-- A hyperplane matrix: the list of rows (one random hyperplane per bit). -/
abbrev Plane := List (List ℚ)

/-- A bucket key: the bit string produced by hashing a vector against one
plane (one sign bit per hyperplane row). -/
abbrev BKey := List Bool

/-- Error taxonomy of the spec. The Python code raises `ValueError` in every
case; the spec names them `ConfigurationError` (planes not generated, plane
id unknown, dimension mismatch) and `NotFoundError` (`get_item` miss).
`keyError` models the Python `KeyError` raised by a dictionary access on a
missing key. -/
inductive Err where
  | configurationError
  | notFound
  | keyError
deriving DecidableEq

/-- `CollectionConfig` (from `whiplash/collection_config.py`, not in the
sources). Modelled from the spec: it carries the collection id, the feature
count and the mapping `plane_id → hyperplane matrix`; an empty mapping means
the planes have not been generated. -/
structure CollectionConfig where
  id : String
  n_features : Nat
  uniform_planes : List (Nat × Plane)
deriving DecidableEq

/-- A stored vector (from `whiplash/vector.py`, not in the sources).
Modelled from the spec: `{id, values}`. -/
structure Vector where
  id : String
  vector : Vec
deriving DecidableEq

/-- A record of the vector table. Modelled from the spec: records are flat
mappings holding the vector payload for vector records and a `metadata`
field for records written by `insert_metadata`; `metadata := none` models a
record without a `"metadata"` key. -/
structure DynRec where
  vector : Vec := []
  metadata : Option String := none
deriving DecidableEq

/-- A search result (`CompVector` from `whiplash/vector.py`, not in the
sources). Modelled from the spec: `{id, values, score}`. -/
structure CompVector where
  id : String
  vector : Vec
  dist : ℚ
deriving DecidableEq

/-- A result of `search_with_metadata`: the dictionary
`{id, dist, metadata?}` built by dropping the `vector` key from a
`CompVector` and optionally joining a metadata blob. -/
structure MetaResult where
  id : String
  dist : ℚ
  metadata : Option String := none
deriving DecidableEq

/-- The vector table: id → record. Modelled from the spec: the key-value
store maps opaque ids to records, `none` meaning no record. -/
def VTable := String → Option DynRec

/-- The bucket table: bucket key → stored id-set. Modelled from the spec: a
set-valued column; a bucket with an empty set is indistinguishable from a
nonexistent one, so absent buckets are the constant `[]`. The set is
represented as a duplicate-free list. -/
def BTable := BKey → List String

/-- The two storage tables owned by one `Collection`. -/
structure State where
  vectorTable : VTable
  bucketTable : BTable

/-- Dot product of two rational vectors (`numpy.dot` on equal-length
one-dimensional arrays). -/
def dotQ : Vec → Vec → ℚ
  | [], _ => 0
  | _, [] => 0
  | a :: as, b :: bs => a * b + dotQ as bs

/-- Modelled from the spec: `vector_plane_hash` from `whiplash/hashing.py`
(not in the sources) projects the vector onto every row of the plane's
hyperplane matrix and takes the sign of each projection as one bit
(positive → 1, non-positive → 0), concatenated in row order. The underlying
`numpy` dot product fails on a shape mismatch, modelled by `none` when some
row length differs from the vector length. -/
def vector_plane_hash (v : Vec) (plane : Plane) : Option BKey :=
  if plane.all (fun row => row.length = v.length) then
    some (plane.map (fun row => decide (0 < dotQ row v)))
  else none

/-- Dictionary lookup `uniform_planes[plane_id]`. -/
def lookupPlane (planes : List (Nat × Plane)) (pid : Nat) : Option Plane :=
  (planes.find? (fun e => e.1 = pid)).map (fun e => e.2)

/-- `Collection.hash_key`: raises when the planes have not been generated or
the plane id is unknown, then hashes the vector against the selected plane.
A dimension mismatch surfaces as `configurationError` as well (the spec's
taxonomy puts dimension mismatches under `ConfigurationError`). -/
def hash_key (cfg : CollectionConfig) (v : Vec) (pid : Nat) : Except Err BKey :=
  if cfg.uniform_planes = [] then .error .configurationError
  else
    match lookupPlane cfg.uniform_planes pid with
    | none => .error .configurationError
    | some plane =>
      match vector_plane_hash v plane with
      | none => .error .configurationError
      | some key => .ok key

/-- Modelled from the spec: `cosine_similarity` from
`whiplash/vector_math.py` (not in the sources) is
`dot(a,b) / (‖a‖·‖b‖)`. To stay inside `ℚ` the score is represented by its
image under the strictly increasing map `x ↦ x·|x|`, namely
`dot(a,b)·|dot(a,b)| / (dot(a,a)·dot(b,b))`: order and equality of scores
agree with the order and equality of the true cosine similarities, and a
zero-norm operand yields score 0 (the spec's "defines similarity as 0"
choice; `ℚ` division by zero is zero). -/
def cosine_similarity (a b : Vec) : ℚ :=
  (dotQ a b * |dotQ a b|) / (dotQ a a * dotQ b b)

/-- Modelled from the spec: `cosine_similarity_bulk` from
`whiplash/vector_math.py` (not in the sources) returns the indices of the
(at most) `k` candidates with the highest cosine similarity to the query,
with a deterministic tie-break; modelled as a stable sort of the index list
by descending score followed by `take k`. -/
def cosine_similarity_bulk (q : Vec) (cands : List Vec) (k : Nat) : List Nat :=
  ((List.range cands.length).insertionSort
    (fun i j => cosine_similarity q (cands.getD j []) ≤ cosine_similarity q (cands.getD i []))).take k

/-- Modelled from the spec: `put` of the key-value store upserts a record by
id (overwrite semantics). -/
def putRec (vt : VTable) (i : String) (r : DynRec) : VTable :=
  fun j => if j = i then some r else vt j

/-- Modelled from the spec: `put_batch` upserts every record of the batch. -/
def put_batch (vt : VTable) (recs : List (String × DynRec)) : VTable :=
  recs.foldl (fun t p => putRec t p.1 p.2) vt

/-- Modelled from the spec: `get_bulk` returns the records of the requested
ids, silently omitting ids with no record; it never errors on partial
misses. Each returned record is paired with the id it was stored under. -/
def get_bulk (vt : VTable) (ids : List String) : List (String × DynRec) :=
  ids.filterMap (fun i => (vt i).map (fun r => (i, r)))

/-- Set union on the duplicate-free list representation of a stored
id-set: elements of `new` not already present are appended. -/
def unionSet (old new : List String) : List String :=
  old ++ new.filter (fun x => decide (x ∉ old))

/-- Modelled from the spec: `union_column` atomically merges the given
values into the set-valued column at `key`, creating the row if absent. -/
def union_column (bt : BTable) (key : BKey) (vals : List String) : BTable :=
  fun k => if k = key then unionSet (bt k) vals else bt k

/-- `Vector.from_dynamo`: rebuild a vector from a stored record and the id
it was stored under. -/
def Vector.from_dynamo (p : String × DynRec) : Vector :=
  ⟨p.1, p.2.vector⟩

/-- `Vector.to_dynamo`: the record written for a vector. -/
def Vector.to_dynamo (v : Vector) : DynRec :=
  { vector := v.vector }

/-- `Collection.get_item`: read-through to the vector table, failing with
`NotFoundError` when the id has no record. -/
def get_item (vt : VTable) (i : String) : Except Err Vector :=
  match vt i with
  | none => .error .notFound
  | some r => .ok (Vector.from_dynamo (i, r))

/-- `Collection.get_bulk_items`: bulk read-through; missing ids are simply
absent from the result. -/
def get_bulk_items (vt : VTable) (ids : List String) : List Vector :=
  (get_bulk vt ids).map Vector.from_dynamo

/-- The per-plane loop of `Collection.insert`: for each plane id, hash the
vector and union its id into the bucket; a hash failure aborts the loop,
keeping the bucket writes already issued. -/
def insertLoop (cfg : CollectionConfig) (v : Vector) :
    List (Nat × Plane) → State → Option Err × State
  | [], st => (none, st)
  | e :: rest, st =>
    match hash_key cfg v.vector e.1 with
    | .error err => (some err, st)
    | .ok key =>
      insertLoop cfg v rest
        { st with bucketTable := union_column st.bucketTable key [v.id] }

/-- `Collection.insert`: checks that planes are generated, writes the vector
record, then unions the id into one bucket per plane. -/
def insert (cfg : CollectionConfig) (st : State) (v : Vector) : Option Err × State :=
  if cfg.uniform_planes = [] then (some .configurationError, st)
  else
    insertLoop cfg v cfg.uniform_planes
      { st with vectorTable := putRec st.vectorTable v.id v.to_dynamo }

/-- One `buckets[bucket_key].add(vec.id)` step on the `defaultdict(set)` of
`Collection.insert_batch`, represented as an association list in insertion
order with duplicate-free value lists. -/
def addToGroups : List (BKey × List String) → BKey → String → List (BKey × List String)
  | [], key, i => [(key, [i])]
  | (k, s) :: rest, key, i =>
    if k = key then (k, if i ∈ s then s else s ++ [i]) :: rest
    else (k, s) :: addToGroups rest key i

/-- The inner plane loop of the grouping phase of `Collection.insert_batch`
for one vector. -/
def groupVec (cfg : CollectionConfig) (v : Vector) :
    List (Nat × Plane) → List (BKey × List String) → Except Err (List (BKey × List String))
  | [], gs => .ok gs
  | e :: rest, gs =>
    match hash_key cfg v.vector e.1 with
    | .error err => .error err
    | .ok key => groupVec cfg v rest (addToGroups gs key v.id)

/-- The grouping phase of `Collection.insert_batch`: group all vector ids of
the batch by bucket key. -/
def groupAll (cfg : CollectionConfig) :
    List Vector → List (BKey × List String) → Except Err (List (BKey × List String))
  | [], gs => .ok gs
  | v :: vs, gs =>
    match groupVec cfg v cfg.uniform_planes gs with
    | .error err => .error err
    | .ok gs' => groupAll cfg vs gs'

/-- The write phase of `Collection.insert_batch`: one set-union storage
update per entry of the grouped association list. -/
def applyGroups (bt : BTable) (gs : List (BKey × List String)) : BTable :=
  gs.foldl (fun t p => union_column t p.1 p.2) bt

/-- `Collection.insert_batch`: checks that planes are generated, batch-puts
all vector records, groups ids by bucket key across the whole batch, then
issues one set-union update per grouped bucket. A hash failure during
grouping happens before any bucket write, so only the batched vector put
has reached storage. -/
def insert_batch (cfg : CollectionConfig) (st : State) (vs : List Vector) :
    Option Err × State :=
  if cfg.uniform_planes = [] then (some .configurationError, st)
  else
    let st1 : State :=
      { st with vectorTable := put_batch st.vectorTable (vs.map (fun v => (v.id, v.to_dynamo))) }
    match groupAll cfg vs [] with
    | .error err => (some err, st1)
    | .ok gs => (none, { st1 with bucketTable := applyGroups st1.bucketTable gs })

/-- `Collection.insert_metadata`: stores each metadata blob as a record
keyed by `"meta#" + id` in the vector table, batched. -/
def insert_metadata (st : State) (metadata : List (String × String)) : State :=
  let items := metadata.map (fun p => ("meta#" ++ p.1, ({ metadata := some p.2 } : DynRec)))
  { st with vectorTable := put_batch st.vectorTable items }

/-- The bucket-key list comprehension of `Collection.search`: one
`hash_key` per configured plane; the first failure propagates. -/
def bucketKeysOf (cfg : CollectionConfig) (q : Vec) :
    List (Nat × Plane) → Except Err (List BKey)
  | [] => .ok []
  | e :: rest =>
    match hash_key cfg q e.1 with
    | .error err => .error err
    | .ok key =>
      match bucketKeysOf cfg q rest with
      | .error err => .error err
      | .ok keys => .ok (key :: keys)

/-- The candidate-id set of `Collection.search`: the union of the id-sets
of all buckets read for the query's bucket keys, as a duplicate-free
list (the Python set comprehension). -/
def candidatesOf (st : State) (keys : List BKey) : List String :=
  (keys.flatMap st.bucketTable).dedup

/-- The ranking tail of `Collection.search`: bulk top-k selection over the
found candidate vectors, exact scores per selected candidate, final stable
sort by descending score. -/
def searchRank (q : Vec) (items : List Vector) (k : Nat) : List CompVector :=
  ((cosine_similarity_bulk q (items.map (fun it => it.vector)) k).map (fun i =>
    CompVector.mk (items.getD i ⟨"", []⟩).id (items.getD i ⟨"", []⟩).vector
      (cosine_similarity q (items.getD i ⟨"", []⟩).vector))).insertionSort
    (fun x y => y.dist ≤ x.dist)

/-- `Collection.search`: precondition check, bucket keys, candidate union,
bulk vector read, empty-candidate early return, exact re-rank. -/
def search (cfg : CollectionConfig) (st : State) (q : Vec) (k : Nat) :
    Except Err (List CompVector) :=
  if cfg.uniform_planes = [] then .error .configurationError
  else
    match bucketKeysOf cfg q cfg.uniform_planes with
    | .error err => .error err
    | .ok bucket_keys =>
      let lookup_items := get_bulk_items st.vectorTable (candidatesOf st bucket_keys)
      if lookup_items.length = 0 then .ok []
      else .ok (searchRank q lookup_items k)

/-- One `joined[vector_id]["metadata"] = meta["metadata"]` update of
`Collection.search_with_metadata`: set the metadata of the entry whose id is
the metadata key without its `"meta#"` prefix. -/
def setMeta (j : List MetaResult) (vid : String) (m : String) : List MetaResult :=
  j.map (fun r => if r.id = vid then { r with metadata := some m } else r)

/-- The metadata-join loop of `Collection.search_with_metadata`: a stored
record lacking the `"metadata"` key raises `KeyError`. -/
def joinMetaLoop (j : List MetaResult) :
    List (String × DynRec) → Except Err (List MetaResult)
  | [] => .ok j
  | (key, r) :: rest =>
    match r.metadata with
    | none => .error .keyError
    | some m => joinMetaLoop (setMeta j (key.drop 5) m) rest

/-- `Collection.search_with_metadata`: run `search`, bulk-read the
`"meta#" + id` records of the results, join each blob onto the result with
its id, and keep only the results that received metadata. -/
def search_with_metadata (cfg : CollectionConfig) (st : State) (q : Vec) (k : Nat) :
    Except Err (List MetaResult) :=
  match search cfg st q k with
  | .error err => .error err
  | .ok found =>
    let ids := found.map (fun x => "meta#" ++ x.id)
    let metadata := get_bulk st.vectorTable ids
    let joined := found.map (fun x => MetaResult.mk x.id x.dist none)
    match joinMetaLoop joined metadata with
    | .error err => .error err
    | .ok joined2 => .ok (joined2.filter (fun r => r.metadata.isSome))

/-- The per-result metadata join of the spec: attach the stored blob when a
`"meta#" + id` record with a metadata field exists, drop the result
otherwise. Used to state what `search_with_metadata` returns. -/
def metaJoin (vt : VTable) (x : CompVector) : Option MetaResult :=
  match vt ("meta#" ++ x.id) with
  | some r =>
    match r.metadata with
    | some m => some ⟨x.id, x.dist, some m⟩
    | none => none
  | none => none

/-- The pointwise effect of the metadata-join loop on a single joined entry:
fold every fetched metadata record over it, setting the metadata field
whenever the record's key (without its `"meta#"` prefix) matches the
entry's id. Used to characterise `joinMetaLoop`. -/
def applyMeta (md : List (String × DynRec)) (r : MetaResult) : MetaResult :=
  md.foldl (fun r p =>
    if r.id = p.1.drop 5 then { r with metadata := p.2.metadata } else r) r

/-! ## Basic lemmas -/

theorem get_bulk_items_map_id (vt : VTable) (ids : List String) :
    (get_bulk_items vt ids).map (fun v => v.id) = ids.filter (fun i => (vt i).isSome) := by
  induction ids with
  | nil => rfl
  | cons i rest ih =>
    cases h : vt i with
    | none => simpa [get_bulk_items, get_bulk, h] using ih
    | some r => simpa [get_bulk_items, get_bulk, Vector.from_dynamo, h] using ih

theorem mem_get_bulk_items (vt : VTable) (ids : List String) (v : Vector)
    (hv : v ∈ get_bulk_items vt ids) : ∃ r, vt v.id = some r ∧ v.vector = r.vector := by
  simp only [get_bulk_items, List.mem_map] at hv
  obtain ⟨p, hp, hfd⟩ := hv
  simp only [get_bulk, List.mem_filterMap] at hp
  obtain ⟨a, _, hpa⟩ := hp
  cases h : vt a with
  | none => simp [h] at hpa
  | some r' =>
    simp only [h, Option.map_some'] at hpa
    cases hpa
    exact ⟨r', by simp [← hfd, Vector.from_dynamo, h], by simp [← hfd, Vector.from_dynamo]⟩

/-! ## C6 -/

/-- C6: when the planes have not been generated, `search` fails with
`ConfigurationError` and its result does not depend on the storage state at
all (so no storage is read); and `hash_key` fails with `ConfigurationError`
when the planes are not generated or the plane id is absent from the
config. -/
theorem search_hash_config_errors :
    (∀ (cfg : CollectionConfig) (st st' : State) (q : Vec) (k : Nat),
      cfg.uniform_planes = [] →
        search cfg st q k = Except.error Err.configurationError ∧
        search cfg st q k = search cfg st' q k) ∧
    (∀ (cfg : CollectionConfig) (v : Vec) (pid : Nat),
      cfg.uniform_planes = [] ∨ lookupPlane cfg.uniform_planes pid = none →
        hash_key cfg v pid = Except.error Err.configurationError) := by
  constructor
  · intro cfg st st' q k h
    constructor <;> simp [search, h]
  · intro cfg v pid h
    rcases h with h | h
    · simp [hash_key, h]
    · by_cases hne : cfg.uniform_planes = []
      · simp [hash_key, hne]
      · simp [hash_key, hne, h]

/-- Witness for C6: a config with no generated planes makes `search` fail on
any storage, and a generated config rejects an absent plane id in
`hash_key`. -/
theorem search_hash_config_errors_witness :
    search ⟨"c", 2, []⟩ ⟨fun _ => none, fun _ => []⟩ [1, 0] 5 =
        Except.error Err.configurationError ∧
    hash_key ⟨"c", 2, [(0, [[1, 1]])]⟩ [1, 0] 7 = Except.error Err.configurationError :=
  ⟨(search_hash_config_errors.1 ⟨"c", 2, []⟩ ⟨fun _ => none, fun _ => []⟩
      ⟨fun _ => none, fun _ => []⟩ [1, 0] 5 rfl).1,
   search_hash_config_errors.2 ⟨"c", 2, [(0, [[1, 1]])]⟩ [1, 0] 7 (Or.inr rfl)⟩

/-! ## C7 -/

/-- C7: for a fixed config with generated planes containing the plane id,
hashing a vector is deterministic: repeated evaluations agree, and any two
configs with the same generated planes (e.g. two processes that
reconstructed the same config) produce the same bucket key, with no
dependence on anything but the vector and the planes. -/
theorem hash_key_deterministic (cfg cfg' : CollectionConfig) (v : Vec) (pid : Nat)
    (plane : Plane)
    (hne : cfg.uniform_planes ≠ [])
    (hlp : lookupPlane cfg.uniform_planes pid = some plane)
    (hdim : (vector_plane_hash v plane).isSome = true)
    (heq : cfg'.uniform_planes = cfg.uniform_planes) :
    ∃ key, hash_key cfg v pid = Except.ok key ∧ hash_key cfg' v pid = Except.ok key ∧
      hash_key cfg v pid = hash_key cfg v pid := by
  obtain ⟨key, hkey⟩ := Option.isSome_iff_exists.mp hdim
  exact ⟨key, by simp [hash_key, hne, hlp, hkey],
    by simp [hash_key, heq, hne, hlp, hkey], rfl⟩

/-- Witness for C7: two configs sharing the same planes hash `[1, 0]` to the
same key. -/
theorem hash_key_deterministic_witness :
    ∃ key, hash_key ⟨"c", 2, [(0, [[1, 1]])]⟩ [1, 0] 0 = Except.ok key ∧
      hash_key ⟨"d", 2, [(0, [[1, 1]])]⟩ [1, 0] 0 = Except.ok key ∧
      hash_key ⟨"c", 2, [(0, [[1, 1]])]⟩ [1, 0] 0 =
        hash_key ⟨"c", 2, [(0, [[1, 1]])]⟩ [1, 0] 0 :=
  hash_key_deterministic ⟨"c", 2, [(0, [[1, 1]])]⟩ ⟨"d", 2, [(0, [[1, 1]])]⟩ [1, 0] 0
    [[1, 1]] (by decide) rfl rfl rfl

/-! ## C8 -/

/-- C8: `get_item` fails with `NotFoundError` exactly when the id has no
record, while `get_bulk_items` never errors: it returns precisely the
vectors of the present ids (in request order), so missing ids only shorten
the result sequence. -/
theorem get_item_bulk_missing_ok :
    (∀ (vt : VTable) (i : String), vt i = none → get_item vt i = Except.error Err.notFound) ∧
    (∀ (vt : VTable) (ids : List String),
      (get_bulk_items vt ids).map (fun v => v.id) = ids.filter (fun i => (vt i).isSome) ∧
      ∀ v ∈ get_bulk_items vt ids, ∃ r, vt v.id = some r ∧ v.vector = r.vector) := by
  refine ⟨fun vt i h => by simp [get_item, h], fun vt ids => ⟨get_bulk_items_map_id vt ids, ?_⟩⟩
  exact fun v hv => mem_get_bulk_items vt ids v hv

/-- Witness for C8: a table holding only `"a"`; `get_item` on `"z"` fails
with `NotFoundError` and `get_bulk_items ["z", "a"]` returns just the record
of `"a"`. -/
theorem get_item_bulk_missing_ok_witness :
    get_item (fun i => if i = "a" then some ⟨[1, 2], none⟩ else none) "z" =
        Except.error Err.notFound ∧
    (get_bulk_items (fun i => if i = "a" then some ⟨[1, 2], none⟩ else none) ["z", "a"]).map
        (fun v => v.id) =
      (["z", "a"].filter (fun i => ((fun i => if i = "a" then some (⟨[1, 2], none⟩ : DynRec) else none) i).isSome)) :=
  ⟨get_item_bulk_missing_ok.1 (fun i => if i = "a" then some ⟨[1, 2], none⟩ else none) "z" rfl,
   (get_item_bulk_missing_ok.2 (fun i => if i = "a" then some ⟨[1, 2], none⟩ else none) ["z", "a"]).1⟩

/-! ## C2 -/

/-- Counterexample for C2: inserting the 3-dimensional vector `"v1"` into a
2-feature index fails with `ConfigurationError`, yet the vector table is not
left unchanged: the vector record was written before the hash failure, so a
partial write remains. -/
theorem insert_dim_mismatch_cex :
    (insert ⟨"c", 2, [(0, [[1, 1]])]⟩ ⟨fun _ => none, fun _ => []⟩ ⟨"v1", [1, 2, 3]⟩).1 =
        some Err.configurationError ∧
    (fun _ => none : VTable) "v1" = none ∧
    (insert ⟨"c", 2, [(0, [[1, 1]])]⟩ ⟨fun _ => none, fun _ => []⟩ ⟨"v1", [1, 2, 3]⟩).2.vectorTable
        "v1" = some ⟨[1, 2, 3], none⟩ :=
  ⟨rfl, rfl, rfl⟩

/-- C2 amended: inserting a vector whose length mismatches the planes'
row length fails with `ConfigurationError` and leaves every bucket
unchanged, but only after the vector record has already been upserted into
the vector table (one partial write; the record is stored verbatim, neither
truncated nor padded). -/
theorem insert_dim_mismatch_partial_write (cfg : CollectionConfig) (st : State)
    (v : Vector) (pid : Nat) (plane : Plane) (rest : List (Nat × Plane))
    (hp : cfg.uniform_planes = (pid, plane) :: rest)
    (hlp : lookupPlane cfg.uniform_planes pid = some plane)
    (hmm : vector_plane_hash v.vector plane = none) :
    insert cfg st v =
      (some Err.configurationError,
        { st with vectorTable := putRec st.vectorTable v.id v.to_dynamo }) := by
  have hne : cfg.uniform_planes ≠ [] := by simp [hp]
  rw [insert, if_neg hne, hp, insertLoop]
  simp only [hash_key, if_neg hne, hlp, hmm]

/-- Witness for C2 (amended): the concrete mismatching insert of the
counterexample produces exactly the partially-written state. -/
theorem insert_dim_mismatch_partial_write_witness :
    insert ⟨"c", 2, [(0, [[1, 1]])]⟩ ⟨fun _ => none, fun _ => []⟩ ⟨"v1", [1, 2, 3]⟩ =
      (some Err.configurationError,
        { vectorTable := putRec (fun _ => none) "v1" (Vector.to_dynamo ⟨"v1", [1, 2, 3]⟩),
          bucketTable := fun _ => [] }) :=
  insert_dim_mismatch_partial_write ⟨"c", 2, [(0, [[1, 1]])]⟩ ⟨fun _ => none, fun _ => []⟩
    ⟨"v1", [1, 2, 3]⟩ 0 [[1, 1]] [] rfl rfl rfl

/-! ## Search pipeline lemmas -/

theorem search_eq (cfg : CollectionConfig) (st : State) (q : Vec) (k : Nat)
    (keys : List BKey) (hne : cfg.uniform_planes ≠ [])
    (hkeys : bucketKeysOf cfg q cfg.uniform_planes = Except.ok keys) :
    search cfg st q k =
      if (get_bulk_items st.vectorTable (candidatesOf st keys)).length = 0 then Except.ok []
      else Except.ok (searchRank q (get_bulk_items st.vectorTable (candidatesOf st keys)) k) := by
  simp only [search, if_neg hne, hkeys]

theorem cosine_similarity_bulk_lt (q : Vec) (cands : List Vec) (k : Nat) :
    ∀ i ∈ cosine_similarity_bulk q cands k, i < cands.length := by
  intro i hi
  have h1 := List.mem_of_mem_take hi
  rw [List.mem_insertionSort] at h1
  exact List.mem_range.mp h1

theorem cosine_similarity_bulk_length (q : Vec) (cands : List Vec) (k : Nat) :
    (cosine_similarity_bulk q cands k).length = min k cands.length := by
  rw [cosine_similarity_bulk, List.length_take, List.length_insertionSort, List.length_range]

theorem cosine_similarity_bulk_nodup (q : Vec) (cands : List Vec) (k : Nat) :
    (cosine_similarity_bulk q cands k).Nodup := by
  refine List.Nodup.sublist (List.take_sublist _ _) ?_
  exact ((List.perm_insertionSort _ _).nodup_iff).mpr (List.nodup_range _)

theorem searchRank_length (q : Vec) (items : List Vector) (k : Nat) :
    (searchRank q items k).length = min k items.length := by
  simp only [searchRank, List.length_insertionSort, List.length_map,
    cosine_similarity_bulk_length]

theorem searchRank_sorted (q : Vec) (items : List Vector) (k : Nat) :
    List.Sorted (fun a b : CompVector => b.dist ≤ a.dist) (searchRank q items k) := by
  letI : IsTotal CompVector (fun a b => b.dist ≤ a.dist) := ⟨fun a b => le_total b.dist a.dist⟩
  letI : IsTrans CompVector (fun a b => b.dist ≤ a.dist) :=
    ⟨fun _ _ _ hab hbc => le_trans hbc hab⟩
  exact List.sorted_insertionSort _ _

set_option maxHeartbeats 1600000 in
theorem mem_searchRank (q : Vec) (items : List Vector) (k : Nat) (r : CompVector)
    (hr : r ∈ searchRank q items k) :
    ∃ it ∈ items, r = ⟨it.id, it.vector, cosine_similarity q it.vector⟩ := by
  rw [searchRank, List.mem_insertionSort] at hr
  obtain ⟨i, hi, heq⟩ := List.mem_map.mp hr
  have hlt := cosine_similarity_bulk_lt q _ k i hi
  rw [List.length_map] at hlt
  refine ⟨items.getD i ⟨"", []⟩, ?_, heq.symm⟩
  rw [List.getD_eq_getElem items ⟨"", []⟩ hlt]
  exact List.getElem_mem hlt

set_option maxHeartbeats 1600000 in
theorem searchRank_ids_nodup (q : Vec) (items : List Vector) (k : Nat)
    (h : (items.map (fun v => v.id)).Nodup) :
    ((searchRank q items k).map (fun r => r.id)).Nodup := by
  rw [searchRank]
  rw [((List.perm_insertionSort (fun x y : CompVector => y.dist ≤ x.dist) _).map
    (fun r : CompVector => r.id)).nodup_iff]
  rw [List.map_map]
  refine List.Nodup.map_on ?_ (cosine_similarity_bulk_nodup q _ k)
  intro i hi j hj hij
  have hilt := cosine_similarity_bulk_lt q _ k i hi
  have hjlt := cosine_similarity_bulk_lt q _ k j hj
  rw [List.length_map] at hilt hjlt
  simp only [Function.comp_apply, List.getD_eq_getElem items ⟨"", []⟩ hilt,
    List.getD_eq_getElem items ⟨"", []⟩ hjlt] at hij
  have hmi : i < (items.map (fun v => v.id)).length := by simpa using hilt
  have hmj : j < (items.map (fun v => v.id)).length := by simpa using hjlt
  refine (@List.Nodup.getElem_inj_iff _ _ h i hmi j hmj).mp ?_
  simpa using hij

theorem candidatesOf_nodup (st : State) (keys : List BKey) : (candidatesOf st keys).Nodup :=
  List.nodup_dedup _

theorem get_bulk_items_ids_nodup (vt : VTable) (ids : List String) (h : ids.Nodup) :
    ((get_bulk_items vt ids).map (fun v => v.id)).Nodup := by
  rw [get_bulk_items_map_id]
  exact h.filter _

theorem get_bulk_items_nil_of_none (vt : VTable) (ids : List String)
    (h : ∀ i ∈ ids, vt i = none) : get_bulk_items vt ids = [] := by
  have : get_bulk vt ids = [] := by
    rw [get_bulk, List.filterMap_eq_nil_iff]
    intro i hi
    rw [h i hi, Option.map_none']
  rw [get_bulk_items, this, List.map_nil]

theorem mem_candidatesOf (st : State) (keys : List BKey) (cid : String)
    (h : cid ∈ candidatesOf st keys) : ∃ key ∈ keys, cid ∈ st.bucketTable key := by
  rw [candidatesOf, List.mem_dedup] at h
  exact List.mem_flatMap.mp h

/-! ## C4 -/

/-- C4: on an index with generated planes, when every bucket read for the
query's bucket keys is empty (in particular on an index with zero inserted
vectors) `search` returns the empty sequence, not an error. -/
theorem search_empty_candidates (cfg : CollectionConfig) (st : State) (q : Vec) (k : Nat)
    (keys : List BKey) (hne : cfg.uniform_planes ≠ [])
    (hkeys : bucketKeysOf cfg q cfg.uniform_planes = Except.ok keys)
    (hempty : ∀ key ∈ keys, st.bucketTable key = []) :
    search cfg st q k = Except.ok [] := by
  rw [search_eq cfg st q k keys hne hkeys]
  have hc : candidatesOf st keys = [] := by
    rw [candidatesOf, List.dedup_eq_nil, List.flatMap_eq_nil_iff]
    exact hempty
  rw [hc]
  simp [get_bulk_items, get_bulk]

/-- Witness for C4: a one-plane index with empty storage; the query hashes
fine and `search` returns `[]`. -/
theorem search_empty_candidates_witness :
    search ⟨"c", 2, [(0, [[1, 1]])]⟩ ⟨fun _ => none, fun _ => []⟩ [1, 0] 5 = Except.ok [] :=
  search_empty_candidates ⟨"c", 2, [(0, [[1, 1]])]⟩ ⟨fun _ => none, fun _ => []⟩ [1, 0] 5
    [[true]] (by decide) (by with_unfolding_all rfl) (by decide)

/-! ## C9 -/

/-- C9: candidate ids found in buckets but absent from the vector table are
silently skipped by `search`: it succeeds, every returned result's id has a
record in the vector table, and when every candidate id is dangling it
returns the empty sequence. -/
theorem search_skips_dangling (cfg : CollectionConfig) (st : State) (q : Vec) (k : Nat)
    (keys : List BKey) (hne : cfg.uniform_planes ≠ [])
    (hkeys : bucketKeysOf cfg q cfg.uniform_planes = Except.ok keys) :
    (∃ res, search cfg st q k = Except.ok res ∧
      ∀ r ∈ res, (st.vectorTable r.id).isSome = true) ∧
    ((∀ key ∈ keys, ∀ cid ∈ st.bucketTable key, st.vectorTable cid = none) →
      search cfg st q k = Except.ok []) := by
  constructor
  · rw [search_eq cfg st q k keys hne hkeys]
    by_cases hlen : (get_bulk_items st.vectorTable (candidatesOf st keys)).length = 0
    · exact ⟨[], by rw [if_pos hlen], by intro r hr; cases hr⟩
    · refine ⟨searchRank q (get_bulk_items st.vectorTable (candidatesOf st keys)) k,
        by rw [if_neg hlen], ?_⟩
      intro r hr
      obtain ⟨it, hit, heq⟩ := mem_searchRank q _ k r hr
      obtain ⟨rec, hrec, _⟩ := mem_get_bulk_items st.vectorTable _ it hit
      rw [heq]
      simp [hrec]
  · intro hdangling
    rw [search_eq cfg st q k keys hne hkeys]
    have hnil : get_bulk_items st.vectorTable (candidatesOf st keys) = [] := by
      refine get_bulk_items_nil_of_none _ _ ?_
      intro i hi
      obtain ⟨key, hkey, hmem⟩ := mem_candidatesOf st keys i hi
      exact hdangling key hkey i hmem
    rw [hnil]
    simp

/-- Witness for C9: a bucket holds the dangling id `"ghost"` with an empty
vector table; `search` returns `[]` without error. -/
theorem search_skips_dangling_witness :
    search ⟨"c", 2, [(0, [[1, 1]])]⟩
        ⟨fun _ => none, fun bk => if bk = [true] then ["ghost"] else []⟩ [1, 0] 5 =
      Except.ok [] :=
  (search_skips_dangling ⟨"c", 2, [(0, [[1, 1]])]⟩
    ⟨fun _ => none, fun bk => if bk = [true] then ["ghost"] else []⟩ [1, 0] 5
    [[true]] (by decide) (by with_unfolding_all rfl)).2 (by decide)

/-! ## C3 -/

/-- Counterexample for C3: two distinct ids stored with identical vectors
tie on the score, so the returned sequence is not sorted *strictly*
descending by score. -/
theorem search_strict_desc_cex :
    ∃ res, search ⟨"c", 2, [(0, [[1, 1]])]⟩
        ⟨fun i => if i = "a" then some ⟨[2, 0], none⟩
          else if i = "b" then some ⟨[2, 0], none⟩ else none,
         fun bk => if bk = [true] then ["a", "b"] else []⟩ [1, 0] 5 = Except.ok res ∧
      ¬ List.Pairwise (fun a b : CompVector => b.dist < a.dist) res := by
  refine ⟨[⟨"a", [2, 0], 1⟩, ⟨"b", [2, 0], 1⟩], by with_unfolding_all rfl, ?_⟩
  intro h
  have := (List.pairwise_cons.mp h).1 ⟨"b", [2, 0], 1⟩ (by simp)
  exact absurd this (by simp)

/-- C3 amended: for every query, `k` and storage state (planes generated and
the query hashing cleanly), `search` returns exactly
`min k (number of unique candidate ids whose vectors are found)` results,
sorted descending by score — descending non-strictly: ties are possible and
are ordered deterministically by the stable sort, so *strict* descent does
not hold in general. -/
theorem search_topk_sorted (cfg : CollectionConfig) (st : State) (q : Vec) (k : Nat)
    (keys : List BKey) (hne : cfg.uniform_planes ≠ [])
    (hkeys : bucketKeysOf cfg q cfg.uniform_planes = Except.ok keys) :
    ∃ res, search cfg st q k = Except.ok res ∧
      res.length = min k (get_bulk_items st.vectorTable (candidatesOf st keys)).length ∧
      List.Sorted (fun a b : CompVector => b.dist ≤ a.dist) res := by
  rw [search_eq cfg st q k keys hne hkeys]
  by_cases hlen : (get_bulk_items st.vectorTable (candidatesOf st keys)).length = 0
  · refine ⟨[], by rw [if_pos hlen], ?_, List.sorted_nil⟩
    simp [hlen]
  · exact ⟨searchRank q (get_bulk_items st.vectorTable (candidatesOf st keys)) k,
      by rw [if_neg hlen], searchRank_length q _ k, searchRank_sorted q _ k⟩

/-- Witness for C3 (amended) at the tie counterexample's input: two stored
vectors, `k = 5`, so exactly `min 5 2 = 2` results come back, sorted
non-strictly descending. -/
theorem search_topk_sorted_witness :
    ∃ res, search ⟨"c", 2, [(0, [[1, 1]])]⟩
        ⟨fun i => if i = "a" then some ⟨[2, 0], none⟩
          else if i = "b" then some ⟨[2, 0], none⟩ else none,
         fun bk => if bk = [true] then ["a", "b"] else []⟩ [1, 0] 5 = Except.ok res ∧
      res.length = min 5 (get_bulk_items
        (fun i => if i = "a" then some ⟨[2, 0], none⟩
          else if i = "b" then some ⟨[2, 0], none⟩ else none)
        (candidatesOf ⟨fun i => if i = "a" then some ⟨[2, 0], none⟩
          else if i = "b" then some ⟨[2, 0], none⟩ else none,
         fun bk => if bk = [true] then ["a", "b"] else []⟩ [[true]])).length ∧
      List.Sorted (fun a b : CompVector => b.dist ≤ a.dist) res :=
  search_topk_sorted ⟨"c", 2, [(0, [[1, 1]])]⟩
    ⟨fun i => if i = "a" then some ⟨[2, 0], none⟩
      else if i = "b" then some ⟨[2, 0], none⟩ else none,
     fun bk => if bk = [true] then ["a", "b"] else []⟩ [1, 0] 5 [[true]]
    (by decide) (by with_unfolding_all rfl)

/-! ## Insert / batch-insert lemmas -/

theorem except_isOk_exists {α : Type} {e : Except Err α} (h : e.isOk = true) :
    ∃ a, e = Except.ok a := by
  cases e with
  | error err => simp [Except.isOk, Except.toBool] at h
  | ok a => exact ⟨a, rfl⟩

theorem mem_unionSet {old new : List String} {x : String} :
    x ∈ unionSet old new ↔ x ∈ old ∨ x ∈ new := by
  simp only [unionSet, List.mem_append, List.mem_filter, decide_eq_true_eq]
  constructor
  · rintro (h | ⟨h, _⟩)
    · exact Or.inl h
    · exact Or.inr h
  · rintro (h | h)
    · exact Or.inl h
    · by_cases hx : x ∈ old
      · exact Or.inl hx
      · exact Or.inr ⟨h, hx⟩

theorem mem_union_column (bt : BTable) (key k : BKey) (vals : List String) (x : String) :
    x ∈ union_column bt key vals k ↔ x ∈ bt k ∨ (k = key ∧ x ∈ vals) := by
  rw [union_column]
  by_cases h : k = key
  · subst h
    simp [mem_unionSet]
  · simp [h]

theorem insertLoop_ok (cfg : CollectionConfig) (v : Vector) (planes : List (Nat × Plane))
    (hok : ∀ e ∈ planes, ∃ key, hash_key cfg v.vector e.1 = Except.ok key) :
    ∀ st : State,
      (insertLoop cfg v planes st).1 = none ∧
      (insertLoop cfg v planes st).2.vectorTable = st.vectorTable ∧
      ∀ k x, x ∈ (insertLoop cfg v planes st).2.bucketTable k ↔
        x ∈ st.bucketTable k ∨
          (x = v.id ∧ ∃ e ∈ planes, hash_key cfg v.vector e.1 = Except.ok k) := by
  induction planes with
  | nil => intro st; simp [insertLoop]
  | cons e rest ih =>
    intro st
    obtain ⟨key, hkey⟩ := hok e (List.mem_cons_self e rest)
    have hok' : ∀ e' ∈ rest, ∃ key, hash_key cfg v.vector e'.1 = Except.ok key :=
      fun e' he' => hok e' (List.mem_cons_of_mem e he')
    rw [insertLoop, hkey]
    obtain ⟨h1, h2, h3⟩ :=
      ih hok' { st with bucketTable := union_column st.bucketTable key [v.id] }
    refine ⟨h1, h2, ?_⟩
    intro k x
    rw [h3 k x]
    simp only [mem_union_column, List.mem_singleton, List.mem_cons, List.not_mem_nil,
      or_false]
    constructor
    · rintro ((hx | ⟨hk, hxv⟩) | ⟨hxv, e', he', hkey'⟩)
      · exact Or.inl hx
      · exact Or.inr ⟨hxv, e, Or.inl rfl, by rw [hkey, hk]⟩
      · exact Or.inr ⟨hxv, e', Or.inr he', hkey'⟩
    · rintro (hx | ⟨hxv, e', rfl | he', hkey'⟩)
      · exact Or.inl (Or.inl hx)
      · have hkk : key = k := Except.ok.inj (hkey.symm.trans hkey')
        exact Or.inl (Or.inr ⟨hkk.symm, hxv⟩)
      · exact Or.inr ⟨hxv, e', he', hkey'⟩

theorem insert_ok (cfg : CollectionConfig) (st : State) (v : Vector)
    (hne : cfg.uniform_planes ≠ [])
    (hok : ∀ e ∈ cfg.uniform_planes, ∃ key, hash_key cfg v.vector e.1 = Except.ok key) :
    (insert cfg st v).1 = none ∧
    (insert cfg st v).2.vectorTable = putRec st.vectorTable v.id v.to_dynamo ∧
    ∀ k x, x ∈ (insert cfg st v).2.bucketTable k ↔
      x ∈ st.bucketTable k ∨
        (x = v.id ∧ ∃ e ∈ cfg.uniform_planes, hash_key cfg v.vector e.1 = Except.ok k) := by
  rw [insert, if_neg hne]
  exact insertLoop_ok cfg v cfg.uniform_planes hok
    { st with vectorTable := putRec st.vectorTable v.id v.to_dynamo }

theorem foldl_insert_mem (cfg : CollectionConfig) (vs : List Vector)
    (hne : cfg.uniform_planes ≠ [])
    (hok : ∀ v ∈ vs, ∀ e ∈ cfg.uniform_planes, ∃ key, hash_key cfg v.vector e.1 = Except.ok key) :
    ∀ (st : State) (k : BKey) (x : String),
      x ∈ (vs.foldl (fun s v => (insert cfg s v).2) st).bucketTable k ↔
        x ∈ st.bucketTable k ∨
          ∃ v ∈ vs, x = v.id ∧ ∃ e ∈ cfg.uniform_planes, hash_key cfg v.vector e.1 = Except.ok k := by
  induction vs with
  | nil => intro st k x; simp
  | cons v rest ih =>
    intro st k x
    have hokv := hok v (List.mem_cons_self v rest)
    have hokr : ∀ v' ∈ rest, ∀ e ∈ cfg.uniform_planes,
        ∃ key, hash_key cfg v'.vector e.1 = Except.ok key :=
      fun v' hv' => hok v' (List.mem_cons_of_mem v hv')
    rw [List.foldl_cons, ih hokr ((insert cfg st v).2) k x,
      (insert_ok cfg st v hne hokv).2.2 k x]
    simp only [List.exists_mem_cons_iff]
    exact or_assoc

theorem addToGroups_mem (gs : List (BKey × List String)) (key : BKey) (i : String)
    (k : BKey) (x : String) :
    (∃ p ∈ addToGroups gs key i, p.1 = k ∧ x ∈ p.2) ↔
      (∃ p ∈ gs, p.1 = k ∧ x ∈ p.2) ∨ (k = key ∧ x = i) := by
  induction gs with
  | nil =>
    simp only [addToGroups, List.mem_singleton, List.not_mem_nil, false_and, exists_false,
      false_or]
    constructor
    · rintro ⟨p, rfl, hk, hx⟩
      simp only [List.mem_singleton] at hx
      exact ⟨hk.symm, hx⟩
    · rintro ⟨rfl, rfl⟩
      exact ⟨(k, [x]), rfl, rfl, List.mem_singleton.mpr rfl⟩
  | cons p rest ih =>
    obtain ⟨k', s⟩ := p
    by_cases h : k' = key
    · subst h
      rw [addToGroups, if_pos rfl]
      simp only [List.exists_mem_cons_iff]
      by_cases hi : i ∈ s
      · rw [if_pos hi]
        constructor
        · rintro (⟨hk, hx⟩ | hrest)
          · exact Or.inl (Or.inl ⟨hk, hx⟩)
          · exact Or.inl (Or.inr hrest)
        · rintro ((⟨hk, hx⟩ | hrest) | ⟨rfl, rfl⟩)
          · exact Or.inl ⟨hk, hx⟩
          · exact Or.inr hrest
          · exact Or.inl ⟨rfl, hi⟩
      · rw [if_neg hi]
        simp only [List.mem_append, List.mem_singleton]
        constructor
        · rintro (⟨hk, hx | hx⟩ | hrest)
          · exact Or.inl (Or.inl ⟨hk, hx⟩)
          · exact Or.inr ⟨hk.symm, hx⟩
          · exact Or.inl (Or.inr hrest)
        · rintro ((⟨hk, hx⟩ | hrest) | ⟨rfl, rfl⟩)
          · exact Or.inl ⟨hk, Or.inl hx⟩
          · exact Or.inr hrest
          · exact Or.inl ⟨rfl, Or.inr rfl⟩
    · rw [addToGroups, if_neg h]
      simp only [List.exists_mem_cons_iff] at ih ⊢
      rw [ih]
      exact or_assoc.symm

theorem addToGroups_keys_mem (gs : List (BKey × List String)) (key : BKey) (i : String)
    (k : BKey) :
    k ∈ (addToGroups gs key i).map Prod.fst ↔ k ∈ gs.map Prod.fst ∨ k = key := by
  induction gs with
  | nil => simp [addToGroups]
  | cons p rest ih =>
    obtain ⟨k', s⟩ := p
    by_cases h : k' = key
    · subst h
      rw [addToGroups, if_pos rfl]
      simp only [List.map_cons, List.mem_cons]
      tauto
    · rw [addToGroups, if_neg h]
      simp only [List.map_cons, List.mem_cons, ih]
      tauto

theorem addToGroups_keys_nodup (gs : List (BKey × List String)) (key : BKey) (i : String)
    (h : (gs.map Prod.fst).Nodup) : ((addToGroups gs key i).map Prod.fst).Nodup := by
  induction gs with
  | nil => simp [addToGroups]
  | cons p rest ih =>
    obtain ⟨k', s⟩ := p
    simp only [List.map_cons, List.nodup_cons] at h
    by_cases hkk : k' = key
    · subst hkk
      rw [addToGroups, if_pos rfl]
      simp only [List.map_cons, List.nodup_cons]
      exact h
    · rw [addToGroups, if_neg hkk]
      simp only [List.map_cons, List.nodup_cons]
      refine ⟨?_, ih h.2⟩
      rw [addToGroups_keys_mem]
      rintro (hmem | rfl)
      · exact h.1 hmem
      · exact hkk rfl

theorem groupVec_ok (cfg : CollectionConfig) (v : Vector) (planes : List (Nat × Plane))
    (hok : ∀ e ∈ planes, ∃ key, hash_key cfg v.vector e.1 = Except.ok key) :
    ∀ gs, ∃ gs', groupVec cfg v planes gs = Except.ok gs' ∧
      (∀ k x, (∃ p ∈ gs', p.1 = k ∧ x ∈ p.2) ↔
        (∃ p ∈ gs, p.1 = k ∧ x ∈ p.2) ∨
          (x = v.id ∧ ∃ e ∈ planes, hash_key cfg v.vector e.1 = Except.ok k)) ∧
      (∀ k, k ∈ gs'.map Prod.fst ↔
        k ∈ gs.map Prod.fst ∨ ∃ e ∈ planes, hash_key cfg v.vector e.1 = Except.ok k) ∧
      ((gs.map Prod.fst).Nodup → (gs'.map Prod.fst).Nodup) := by
  induction planes with
  | nil =>
    intro gs
    exact ⟨gs, rfl, by simp, by simp, fun h => h⟩
  | cons e rest ih =>
    intro gs
    obtain ⟨key, hkey⟩ := hok e (List.mem_cons_self e rest)
    have hok' : ∀ e' ∈ rest, ∃ key, hash_key cfg v.vector e'.1 = Except.ok key :=
      fun e' he' => hok e' (List.mem_cons_of_mem e he')
    obtain ⟨gs', hgs', hmem, hkeys, hnd⟩ := ih hok' (addToGroups gs key v.id)
    refine ⟨gs', ?_, ?_, ?_, ?_⟩
    · rw [groupVec, hkey]
      exact hgs'
    · intro k x
      rw [hmem k x, addToGroups_mem]
      simp only [List.exists_mem_cons_iff]
      constructor
      · rintro ((hgs | ⟨hk, rfl⟩) | ⟨rfl, e', he', hkey'⟩)
        · exact Or.inl hgs
        · exact Or.inr ⟨rfl, Or.inl (by rw [hkey, hk])⟩
        · exact Or.inr ⟨rfl, Or.inr ⟨e', he', hkey'⟩⟩
      · rintro (hgs | ⟨rfl, hkey' | ⟨e', he', hkey'⟩⟩)
        · exact Or.inl (Or.inl hgs)
        · exact Or.inl (Or.inr ⟨Except.ok.inj (hkey.symm.trans hkey') |>.symm, rfl⟩)
        · exact Or.inr ⟨rfl, e', he', hkey'⟩
    · intro k
      rw [hkeys k, addToGroups_keys_mem]
      simp only [List.exists_mem_cons_iff]
      constructor
      · rintro ((hgs | rfl) | ⟨e', he', hkey'⟩)
        · exact Or.inl hgs
        · exact Or.inr (Or.inl hkey)
        · exact Or.inr (Or.inr ⟨e', he', hkey'⟩)
      · rintro (hgs | hkey' | ⟨e', he', hkey'⟩)
        · exact Or.inl (Or.inl hgs)
        · exact Or.inl (Or.inr (Except.ok.inj (hkey.symm.trans hkey')).symm)
        · exact Or.inr ⟨e', he', hkey'⟩
    · intro h
      exact hnd (addToGroups_keys_nodup gs key v.id h)

theorem groupAll_ok (cfg : CollectionConfig) (vs : List Vector)
    (hok : ∀ v ∈ vs, ∀ e ∈ cfg.uniform_planes,
      ∃ key, hash_key cfg v.vector e.1 = Except.ok key) :
    ∀ gs, ∃ gs', groupAll cfg vs gs = Except.ok gs' ∧
      (∀ k x, (∃ p ∈ gs', p.1 = k ∧ x ∈ p.2) ↔
        (∃ p ∈ gs, p.1 = k ∧ x ∈ p.2) ∨
          ∃ v ∈ vs, x = v.id ∧ ∃ e ∈ cfg.uniform_planes,
            hash_key cfg v.vector e.1 = Except.ok k) ∧
      (∀ k, k ∈ gs'.map Prod.fst ↔
        k ∈ gs.map Prod.fst ∨
          ∃ v ∈ vs, ∃ e ∈ cfg.uniform_planes, hash_key cfg v.vector e.1 = Except.ok k) ∧
      ((gs.map Prod.fst).Nodup → (gs'.map Prod.fst).Nodup) := by
  induction vs with
  | nil =>
    intro gs
    exact ⟨gs, rfl, by simp, by simp, fun h => h⟩
  | cons v rest ih =>
    intro gs
    have hokv := hok v (List.mem_cons_self v rest)
    have hokr : ∀ v' ∈ rest, ∀ e ∈ cfg.uniform_planes,
        ∃ key, hash_key cfg v'.vector e.1 = Except.ok key :=
      fun v' hv' => hok v' (List.mem_cons_of_mem v hv')
    obtain ⟨gs1, hgs1, hmem1, hkeys1, hnd1⟩ := groupVec_ok cfg v cfg.uniform_planes hokv gs
    obtain ⟨gs', hgs', hmem, hkeys, hnd⟩ := ih hokr gs1
    refine ⟨gs', ?_, ?_, ?_, fun h => hnd (hnd1 h)⟩
    · rw [groupAll, hgs1]
      exact hgs'
    · intro k x
      rw [hmem k x, hmem1 k x]
      simp only [List.exists_mem_cons_iff]
      exact or_assoc
    · intro k
      rw [hkeys k, hkeys1 k]
      simp only [List.exists_mem_cons_iff]
      exact or_assoc

theorem mem_applyGroups (gs : List (BKey × List String)) :
    ∀ (bt : BTable) (k : BKey) (x : String),
      x ∈ applyGroups bt gs k ↔ x ∈ bt k ∨ ∃ p ∈ gs, p.1 = k ∧ x ∈ p.2 := by
  induction gs with
  | nil => intro bt k x; simp [applyGroups]
  | cons p rest ih =>
    intro bt k x
    have hstep : applyGroups bt (p :: rest) = applyGroups (union_column bt p.1 p.2) rest := rfl
    rw [hstep, ih (union_column bt p.1 p.2) k x, mem_union_column]
    simp only [List.exists_mem_cons_iff]
    tauto

/-! ## C1 -/

/-- C1: with generated planes and well-dimensioned vectors, `insert_batch`
leaves every bucket with exactly the same id-set as inserting each vector
individually with `insert` would; the grouping pass produces exactly one
set-union storage update per distinct bucket key touched by the batch
(duplicate-free key list covering precisely the touched keys); and applying
the grouped updates in any order yields the same bucket contents. -/
theorem insert_batch_refines_insert (cfg : CollectionConfig) (st : State) (vs : List Vector)
    (hne : cfg.uniform_planes ≠ [])
    (hok : ∀ v ∈ vs, ∀ e ∈ cfg.uniform_planes, (hash_key cfg v.vector e.1).isOk = true) :
    (∀ k x, x ∈ (insert_batch cfg st vs).2.bucketTable k ↔
      x ∈ (vs.foldl (fun s v => (insert cfg s v).2) st).bucketTable k) ∧
    ∃ gs, groupAll cfg vs [] = Except.ok gs ∧
      (gs.map Prod.fst).Nodup ∧
      (∀ k, k ∈ gs.map Prod.fst ↔
        ∃ v ∈ vs, ∃ e ∈ cfg.uniform_planes, hash_key cfg v.vector e.1 = Except.ok k) ∧
      (∀ (bt : BTable) (gs' : List (BKey × List String)), gs'.Perm gs →
        ∀ k x, x ∈ applyGroups bt gs' k ↔ x ∈ applyGroups bt gs k) := by
  have hok' : ∀ v ∈ vs, ∀ e ∈ cfg.uniform_planes,
      ∃ key, hash_key cfg v.vector e.1 = Except.ok key :=
    fun v hv e he => except_isOk_exists (hok v hv e he)
  obtain ⟨gs, hgs, hmem, hkeys, hnd⟩ := groupAll_ok cfg vs hok' []
  constructor
  · intro k x
    have hbatch : insert_batch cfg st vs =
        (none, { vectorTable := put_batch st.vectorTable (vs.map fun v => (v.id, v.to_dynamo)),
                 bucketTable := applyGroups st.bucketTable gs }) := by
      rw [insert_batch, if_neg hne]
      simp only [hgs]
    rw [hbatch, foldl_insert_mem cfg vs hne hok' st k x]
    show x ∈ applyGroups st.bucketTable gs k ↔ _
    rw [mem_applyGroups gs st.bucketTable k x, hmem k x]
    simp
  · refine ⟨gs, hgs, hnd (by simp), ?_, ?_⟩
    · intro k
      rw [hkeys k]
      simp
    · intro bt gs' hperm k x
      rw [mem_applyGroups gs' bt k x, mem_applyGroups gs bt k x]
      constructor
      · rintro (h | ⟨p, hp, hpk⟩)
        · exact Or.inl h
        · exact Or.inr ⟨p, hperm.mem_iff.mp hp, hpk⟩
      · rintro (h | ⟨p, hp, hpk⟩)
        · exact Or.inl h
        · exact Or.inr ⟨p, hperm.mem_iff.mpr hp, hpk⟩

/-- Witness for C1: a two-plane config and a two-vector batch; at the bucket
key `[true]` (the one-bit plane's bucket both vectors hash into), the batch
and the two individual inserts agree on whether `"a"` is a member. -/
theorem insert_batch_refines_insert_witness :
    "a" ∈ (insert_batch ⟨"c", 2, [(0, [[1, 1]]), (1, [[1, 0], [0, 1]])]⟩
        ⟨fun _ => none, fun _ => []⟩ [⟨"a", [1, 2]⟩, ⟨"b", [3, 4]⟩]).2.bucketTable [true] ↔
      "a" ∈ ([⟨"a", [1, 2]⟩, ⟨"b", [3, 4]⟩].foldl
        (fun s v => (insert ⟨"c", 2, [(0, [[1, 1]]), (1, [[1, 0], [0, 1]])]⟩ s v).2)
        ⟨fun _ => none, fun _ => []⟩).bucketTable [true] :=
  (insert_batch_refines_insert ⟨"c", 2, [(0, [[1, 1]]), (1, [[1, 0], [0, 1]])]⟩
    ⟨fun _ => none, fun _ => []⟩ [⟨"a", [1, 2]⟩, ⟨"b", [3, 4]⟩]
    (by decide) (by with_unfolding_all decide)).1 [true] "a"

/-! ## Metadata-join lemmas -/

theorem meta_prefix_drop (s : String) : ("meta#" ++ s).drop 5 = s := by
  rw [String.drop_eq]
  cases s with
  | mk data => rfl

theorem mem_get_bulk (vt : VTable) (ids : List String) (p : String × DynRec)
    (hp : p ∈ get_bulk vt ids) : p.1 ∈ ids ∧ vt p.1 = some p.2 := by
  rw [get_bulk, List.mem_filterMap] at hp
  obtain ⟨a, ha, hpa⟩ := hp
  cases h : vt a with
  | none => simp [h] at hpa
  | some r =>
    simp only [h, Option.map_some'] at hpa
    cases hpa
    exact ⟨ha, h⟩

theorem applyMeta_cons (p : String × DynRec) (md : List (String × DynRec)) (r : MetaResult) :
    applyMeta (p :: md) r =
      applyMeta md (if r.id = p.1.drop 5 then { r with metadata := p.2.metadata } else r) :=
  rfl

theorem joinMetaLoop_eq (md : List (String × DynRec))
    (hwf : ∀ p ∈ md, p.2.metadata.isSome = true) :
    ∀ j : List MetaResult, joinMetaLoop j md = Except.ok (j.map (applyMeta md)) := by
  induction md with
  | nil =>
    intro j
    have : j.map (applyMeta []) = j := List.map_id'' (fun r => rfl) j
    rw [joinMetaLoop, this]
  | cons p rest ih =>
    intro j
    obtain ⟨key, rec⟩ := p
    obtain ⟨m, hm⟩ := Option.isSome_iff_exists.mp (hwf (key, rec) (List.mem_cons_self _ _))
    have hm' : rec.metadata = some m := hm
    rw [joinMetaLoop, hm']
    have hrest : ∀ p ∈ rest, p.2.metadata.isSome = true :=
      fun p hp => hwf p (List.mem_cons_of_mem _ hp)
    show joinMetaLoop (setMeta j (key.drop 5) m) rest =
      Except.ok (List.map (applyMeta ((key, rec) :: rest)) j)
    rw [ih hrest (setMeta j (key.drop 5) m)]
    congr 1
    rw [setMeta, List.map_map]
    refine List.map_congr_left ?_
    intro r _
    show applyMeta rest (if r.id = key.drop 5 then { r with metadata := some m } else r) =
      applyMeta ((key, rec) :: rest) r
    rw [applyMeta_cons]
    congr 1
    by_cases h : r.id = key.drop 5
    · simp [h, hm']
    · simp [h]

theorem applyMeta_skip (vt : VTable) (l : List CompVector) (r : MetaResult)
    (hno : ∀ y ∈ l, y.id ≠ r.id) :
    applyMeta (get_bulk vt (l.map (fun y => "meta#" ++ y.id))) r = r := by
  induction l with
  | nil => rfl
  | cons z zs ih =>
    have hz : z.id ≠ r.id := hno z (List.mem_cons_self _ _)
    have hzs : ∀ y ∈ zs, y.id ≠ r.id := fun y hy => hno y (List.mem_cons_of_mem _ hy)
    rw [List.map_cons, get_bulk, List.filterMap_cons]
    cases h : vt ("meta#" ++ z.id) with
    | none =>
      simp only [Option.map_none']
      exact ih hzs
    | some rec =>
      simp only [Option.map_some']
      rw [applyMeta_cons]
      rw [if_neg (by rw [meta_prefix_drop]; exact fun h' => hz h'.symm)]
      exact ih hzs

theorem applyMeta_found (vt : VTable) (l : List CompVector) (x : CompVector)
    (r : MetaResult) (hid : r.id = x.id) :
    (l.map (fun y => y.id)).Nodup → x ∈ l →
    applyMeta (get_bulk vt (l.map (fun y => "meta#" ++ y.id))) r =
      (match vt ("meta#" ++ x.id) with
       | some rec => { r with metadata := rec.metadata }
       | none => r) := by
  induction l with
  | nil => intro _ hx; cases hx
  | cons z zs ih =>
    intro hnd hx
    simp only [List.map_cons, List.nodup_cons] at hnd
    rw [List.map_cons, get_bulk, List.filterMap_cons]
    rcases List.mem_cons.mp hx with rfl | hxzs
    · cases h : vt ("meta#" ++ x.id) with
      | none =>
        simp only [h, Option.map_none']
        refine applyMeta_skip vt zs r ?_
        intro y hy h'
        rw [hid] at h'
        exact hnd.1 (h' ▸ List.mem_map_of_mem (fun y => y.id) hy)
      | some rec =>
        simp only [h, Option.map_some']
        rw [applyMeta_cons]
        rw [if_pos (by rw [meta_prefix_drop]; exact hid)]
        refine applyMeta_skip vt zs _ ?_
        intro y hy h'
        rw [show ({ r with metadata := rec.metadata } : MetaResult).id = r.id from rfl, hid] at h'
        exact hnd.1 (h' ▸ List.mem_map_of_mem (fun y => y.id) hy)
    · have hzx : z.id ≠ x.id := fun h' => hnd.1 (h' ▸ List.mem_map_of_mem (fun y => y.id) hxzs)
      cases h : vt ("meta#" ++ z.id) with
      | none =>
        simp only [Option.map_none']
        exact ih hnd.2 hxzs
      | some rec =>
        simp only [Option.map_some']
        rw [applyMeta_cons]
        rw [if_neg (by rw [meta_prefix_drop, hid]; exact fun h' => hzx h'.symm)]
        exact ih hnd.2 hxzs

theorem filter_map_metaJoin (vt : VTable) (l : List CompVector) :
    (l.map (fun x =>
      match vt ("meta#" ++ x.id) with
      | some rec => MetaResult.mk x.id x.dist rec.metadata
      | none => MetaResult.mk x.id x.dist none)).filter (fun r => r.metadata.isSome) =
      l.filterMap (metaJoin vt) := by
  induction l with
  | nil => rfl
  | cons x rest ih =>
    rw [List.map_cons, List.filterMap_cons]
    cases h : vt ("meta#" ++ x.id) with
    | none => simp [metaJoin, h, ih]
    | some rec =>
      cases hm : rec.metadata with
      | none => simp [metaJoin, h, hm, ih]
      | some m => simp [metaJoin, h, hm, ih]

theorem search_ok_ids_nodup (cfg : CollectionConfig) (st : State) (q : Vec) (k : Nat)
    (found : List CompVector) (h : search cfg st q k = Except.ok found) :
    (found.map (fun r => r.id)).Nodup := by
  by_cases hne : cfg.uniform_planes = []
  · rw [search, if_pos hne] at h
    exact absurd h (by simp)
  · cases hkeys : bucketKeysOf cfg q cfg.uniform_planes with
    | error e =>
      simp only [search, if_neg hne, hkeys] at h
      exact absurd h (by simp)
    | ok keys =>
      simp only [search, if_neg hne, hkeys] at h
      by_cases hlen : (get_bulk_items st.vectorTable (candidatesOf st keys)).length = 0
      · rw [if_pos hlen] at h
        rw [← Except.ok.inj h]
        simp
      · rw [if_neg hlen] at h
        rw [← Except.ok.inj h]
        exact searchRank_ids_nodup q _ k
          (get_bulk_items_ids_nodup st.vectorTable _ (candidatesOf_nodup st keys))

theorem swm_eq_filterMap (cfg : CollectionConfig) (st : State) (q : Vec) (k : Nat)
    (found : List CompVector) (hfound : search cfg st q k = Except.ok found)
    (hwf : ∀ x ∈ found, ∀ rec, st.vectorTable ("meta#" ++ x.id) = some rec →
      rec.metadata.isSome = true) :
    search_with_metadata cfg st q k =
      Except.ok (found.filterMap (metaJoin st.vectorTable)) := by
  have hnd := search_ok_ids_nodup cfg st q k found hfound
  have hwf' : ∀ p ∈ get_bulk st.vectorTable (found.map (fun x => "meta#" ++ x.id)),
      p.2.metadata.isSome = true := by
    intro p hp
    obtain ⟨hpid, hpvt⟩ := mem_get_bulk st.vectorTable _ p hp
    obtain ⟨y, hy, hkey⟩ := List.mem_map.mp hpid
    exact hwf y hy p.2 (by rw [hkey]; exact hpvt)
  have hjoin := joinMetaLoop_eq _ hwf'
    (found.map (fun x => MetaResult.mk x.id x.dist none))
  rw [search_with_metadata, hfound]
  simp only [hjoin]
  rw [List.map_map]
  have hmap : found.map
      ((applyMeta (get_bulk st.vectorTable (found.map (fun x => "meta#" ++ x.id)))) ∘
        (fun x => MetaResult.mk x.id x.dist none)) =
      found.map (fun x =>
        match st.vectorTable ("meta#" ++ x.id) with
        | some rec => MetaResult.mk x.id x.dist rec.metadata
        | none => MetaResult.mk x.id x.dist none) := by
    refine List.map_congr_left ?_
    intro x hx
    show applyMeta (get_bulk st.vectorTable (found.map (fun x => "meta#" ++ x.id)))
        (MetaResult.mk x.id x.dist none) = _
    rw [applyMeta_found st.vectorTable found x (MetaResult.mk x.id x.dist none) rfl hnd hx]
  rw [hmap, filter_map_metaJoin]

theorem filterMap_metaJoin_sublist (vt : VTable) (l : List CompVector) :
    List.Sublist ((l.filterMap (metaJoin vt)).map (fun r => (r.id, r.dist)))
      (l.map (fun x => (x.id, x.dist))) := by
  induction l with
  | nil => simp
  | cons x rest ih =>
    rw [List.filterMap_cons, List.map_cons]
    cases h : metaJoin vt x with
    | none => exact ih.cons _
    | some r =>
      have hid : r.id = x.id ∧ r.dist = x.dist := by
        rw [metaJoin] at h
        cases hv : vt ("meta#" ++ x.id) with
        | none =>
          simp only [hv] at h
          exact Option.noConfusion h
        | some rec =>
          simp only [hv] at h
          cases hm : rec.metadata with
          | none =>
            simp only [hm] at h
            exact Option.noConfusion h
          | some m =>
            simp only [hm] at h
            cases h
            exact ⟨rfl, rfl⟩
      rw [List.map_cons, hid.1, hid.2]
      exact ih.cons₂ _

/-! ## C5 -/

/-- C5: `search_with_metadata` first runs `search`; for each result id it
reads the record stored under `"meta#" + id`, attaches that record's
metadata to the result, and removes every result with no metadata record:
the output is exactly the ordered metadata-join (`metaJoin`) filtered over
the search results, so it can be shorter than what `search` returned. (The
hypothesis `hwf` says the records found under the queried `"meta#"` keys
carry a metadata field, as every record written by `insert_metadata` does;
without it the Python code dies on a `KeyError` instead of joining.) -/
theorem search_with_metadata_join (cfg : CollectionConfig) (st : State) (q : Vec) (k : Nat)
    (found : List CompVector) (hfound : search cfg st q k = Except.ok found)
    (hwf : ∀ x ∈ found, ∀ rec, st.vectorTable ("meta#" ++ x.id) = some rec →
      rec.metadata.isSome = true) :
    search_with_metadata cfg st q k =
      Except.ok (found.filterMap (metaJoin st.vectorTable)) :=
  swm_eq_filterMap cfg st q k found hfound hwf

/-- Witness for C5: two stored vectors `"a"`, `"b"` both hit by the query
but only `"a"` has a metadata record, so `search_with_metadata` returns just
the joined `"a"` even though `search` returned two results. -/
theorem search_with_metadata_join_witness :
    search_with_metadata ⟨"c", 2, [(0, [[1, 1]])]⟩
      ⟨fun i => if i = "a" then some ⟨[2, 0], none⟩
        else if i = "b" then some ⟨[2, 0], none⟩
        else if i = "meta#a" then some ⟨[], some "blob"⟩ else none,
       fun bk => if bk = [true] then ["a", "b"] else []⟩ [1, 0] 5 =
      Except.ok [⟨"a", 1, some "blob"⟩] := by
  have h := search_with_metadata_join ⟨"c", 2, [(0, [[1, 1]])]⟩
    ⟨fun i => if i = "a" then some ⟨[2, 0], none⟩
      else if i = "b" then some ⟨[2, 0], none⟩
      else if i = "meta#a" then some ⟨[], some "blob"⟩ else none,
     fun bk => if bk = [true] then ["a", "b"] else []⟩ [1, 0] 5
    [⟨"a", [2, 0], 1⟩, ⟨"b", [2, 0], 1⟩]
    (by with_unfolding_all rfl)
    (by
      intro x hx rec hrec
      simp only [List.mem_cons, List.not_mem_nil, or_false] at hx
      rcases hx with rfl | rfl
      · have h2 : some rec = some (⟨[], some "blob"⟩ : DynRec) := by
          rw [← hrec]
          with_unfolding_all rfl
        rw [Option.some.inj h2]
        rfl
      · have h2 : some rec = (none : Option DynRec) := by
          rw [← hrec]
          with_unfolding_all rfl
        exact Option.noConfusion h2)
  rw [h]
  with_unfolding_all rfl

/-! ## C10 -/

/-- C10: the results of `search_with_metadata` appear in the same order as
the underlying `search` results: the (id, score) sequence of the output is a
sublist of the (id, score) sequence `search` produced, so the metadata join
and the filtering preserve the descending-by-score ordering. -/
theorem search_with_metadata_preserves_order (cfg : CollectionConfig) (st : State)
    (q : Vec) (k : Nat) (found : List CompVector)
    (hfound : search cfg st q k = Except.ok found)
    (hwf : ∀ x ∈ found, ∀ rec, st.vectorTable ("meta#" ++ x.id) = some rec →
      rec.metadata.isSome = true) :
    ∃ out, search_with_metadata cfg st q k = Except.ok out ∧
      List.Sublist (out.map (fun r => (r.id, r.dist)))
        (found.map (fun x => (x.id, x.dist))) :=
  ⟨found.filterMap (metaJoin st.vectorTable),
    swm_eq_filterMap cfg st q k found hfound hwf,
    filterMap_metaJoin_sublist st.vectorTable found⟩

/-- Witness for C10 at the witness input of C5: the single joined result
keeps the order of the two-element search result. -/
theorem search_with_metadata_preserves_order_witness :
    ∃ out, search_with_metadata ⟨"c", 2, [(0, [[1, 1]])]⟩
      ⟨fun i => if i = "a" then some ⟨[2, 0], none⟩
        else if i = "b" then some ⟨[2, 0], none⟩
        else if i = "meta#a" then some ⟨[], some "blob"⟩ else none,
       fun bk => if bk = [true] then ["a", "b"] else []⟩ [1, 0] 5 = Except.ok out ∧
      List.Sublist (out.map (fun r => (r.id, r.dist)))
        ([⟨"a", [2, 0], 1⟩, ⟨"b", [2, 0], 1⟩].map
          (fun x : CompVector => (x.id, x.dist))) :=
  search_with_metadata_preserves_order ⟨"c", 2, [(0, [[1, 1]])]⟩
    ⟨fun i => if i = "a" then some ⟨[2, 0], none⟩
      else if i = "b" then some ⟨[2, 0], none⟩
      else if i = "meta#a" then some ⟨[], some "blob"⟩ else none,
     fun bk => if bk = [true] then ["a", "b"] else []⟩ [1, 0] 5
    [⟨"a", [2, 0], 1⟩, ⟨"b", [2, 0], 1⟩]
    (by with_unfolding_all rfl)
    (by
      intro x hx rec hrec
      simp only [List.mem_cons, List.not_mem_nil, or_false] at hx
      rcases hx with rfl | rfl
      · have h2 : some rec = some (⟨[], some "blob"⟩ : DynRec) := by
          rw [← hrec]
          with_unfolding_all rfl
        rw [Option.some.inj h2]
        rfl
      · have h2 : some rec = (none : Option DynRec) := by
          rw [← hrec]
          with_unfolding_all rfl
        exact Option.noConfusion h2)

end Whiplash
